import Mathlib

/-!
Verification of the credential-pool startup reconciliation, background key
sweep, invalid-key persistence and process-wide exception fallback of
`app/main.py` (a reverse-proxy gateway managing a pool of upstream API keys).

The Python code is shallowly embedded: the upstream probe `test_api_key`,
the model fetch `GeminiClient.list_available_models` and the error
translation `translate_error` are external collaborators and appear as
function parameters; module state (`key_manager.api_keys`,
`settings.INVALID_API_KEYS`, calls to `save_settings` and
`_reset_key_stack`) becomes explicit input/output data.
-/

namespace Hajimi

/-! ## String-level primitives

Python's `s.split(",")`, `k.strip()` and `",".join(l)` embedded over the
character list underlying a `String`. -/

/-- Embeds Python `s.split(",")` at the character level: cut a character
list at every `','`.  `split("") = [""]`, `split(",") = ["", ""]`. -/
def splitCommaChars : List Char → List (List Char)
  | [] => [[]]
  | c :: cs =>
    if c = ',' then [] :: splitCommaChars cs
    else
      match splitCommaChars cs with
      | [] => [[c]]
      | p :: ps => (c :: p) :: ps

/-- Embeds Python `",".join(pieces)` at the character level. -/
def joinCommaChars : List (List Char) → List Char
  | [] => []
  | [x] => x
  | x :: y :: r => x ++ ',' :: joinCommaChars (y :: r)

/-- Embeds Python `s.strip()`: drop whitespace from both ends. -/
def stripChars (l : List Char) : List Char :=
  ((l.dropWhile Char.isWhitespace).reverse.dropWhile Char.isWhitespace).reverse

/-- Python `s.split(",")`. -/
def splitComma (s : String) : List String :=
  (splitCommaChars s.data).map String.mk

/-- Python `s.strip()`. -/
def strip (s : String) : String :=
  String.mk (stripChars s.data)

/-- Python `",".join(l)`. -/
def joinComma (l : List String) : String :=
  String.mk (joinCommaChars (l.map String.data))

/-! ## Invalid-key persistence (`settings.INVALID_API_KEYS`) -/

/-- Embeds `set(k.strip() for k in s.split(",") if k.strip())`
(main.py lines 217–219 and 308–310): the persisted invalid-key string read
back as a set. -/
def parseInvalidKeys (s : String) : Finset String :=
  (((splitComma s).map strip).filter (· ≠ "")).toFinset

/-- Embeds `",".join(sorted(list(X)))` (main.py lines 226 and 315): the
canonical persisted form of an invalid-key set.  Python's `sorted` on
strings is the code-point lexicographic order, which is `String`'s linear
order. -/
def serializeInvalidKeys (X : Finset String) : String :=
  joinComma (X.sort (· ≤ ·))

/-- Embeds main.py lines 212–227 (and the identical merge at lines
306–320): union the newly discovered invalid keys into the persisted
`INVALID_API_KEYS` value, rewriting and calling `save_settings()` only
when the set actually changed.  Returns the persisted string after the
run and whether a save was performed. -/
def mergeInvalid (current : String) (newKeys : List String) : String × Bool :=
  let currentSet := parseInvalidKeys current
  let newSet := currentSet ∪ newKeys.toFinset
  if newSet ≠ currentSet then (serializeInvalidKeys newSet, true)
  else (current, false)

/-! ## Background sweep (`check_remaining_keys_async`, main.py 188–229) -/

/-- Loop state of the `for key in keys_to_check` loop: the shared pool
`key_manager.api_keys`, the accumulated `local_invalid_keys`, the
`found_valid_keys` flag, and (instrumentation) the keys probed so far. -/
structure BgLoopState where
  pool : List String
  local_invalid : List String
  found_valid : Bool
  probed : List String
deriving Repr, DecidableEq

/-- One iteration of the loop body (main.py 196–207): probe `key`; a valid
key is appended to the pool only if not already present (setting
`found_valid_keys`), an invalid key is appended to `local_invalid_keys`. -/
def bgStep (test : String → Bool) (st : BgLoopState) (key : String) : BgLoopState :=
  if test key then
    if key ∈ st.pool then
      { st with probed := st.probed ++ [key] }
    else
      { st with pool := st.pool ++ [key], found_valid := true,
                probed := st.probed ++ [key] }
  else
    { st with local_invalid := st.local_invalid ++ [key],
              probed := st.probed ++ [key] }

/-- Observable outcome of one run of `check_remaining_keys_async`. -/
structure BgResult where
  pool : List String
  local_invalid : List String
  found_valid : Bool
  probed : List String
  resets : Nat
  invalid_api_keys : String
  saved : Bool
deriving Repr, DecidableEq

/-- Embeds `check_remaining_keys_async` (main.py 188–229): probe every
candidate, append valid ones to the pool (deduplicated), reset the key
stack iff a new valid key was found, then merge all invalid keys
(initial + locally found) into the persisted invalid set, saving only on
change. -/
def check_remaining_keys_async (test : String → Bool) (keys_to_check : List String)
    (initial_invalid_keys : List String) (pool : List String)
    (invalid0 : String) : BgResult :=
  let st := keys_to_check.foldl (bgStep test) ⟨pool, [], false, []⟩
  let resets := if st.found_valid then 1 else 0
  let m := mergeInvalid invalid0 (initial_invalid_keys ++ st.local_invalid)
  ⟨st.pool, st.local_invalid, st.found_valid, st.probed, resets, m.1, m.2⟩

/-! ## Synchronous startup probe (main.py 260–283) -/

/-- Outcome of the blocking `for index, key in enumerate(initial_keys)`
loop that looks for the first valid key. -/
structure SyncResult where
  first : Option String
  invalid : List String
  later : List String
  probed : List String
deriving Repr, DecidableEq

/-- Embeds main.py 266–279: probe keys in order; on the first valid key
stop, remembering the remainder `initial_keys[index + 1 :]` for the
background check; failed keys accumulate in `initial_invalid_keys`. -/
def syncFindFirst (test : String → Bool) : List String → SyncResult
  | [] => ⟨none, [], [], []⟩
  | k :: rest =>
    if test k then ⟨some k, [], rest, [k]⟩
    else
      let r := syncFindFirst test rest
      ⟨r.first, k :: r.invalid, r.later, k :: r.probed⟩

/-- Observable outcome of the key-check part of `startup_event`. -/
structure StartupResult where
  pool : List String
  first_valid_key : Option String
  initial_invalid_keys : List String
  keys_to_check_later : List String
  sync_probed : List String
  resets : Nat
  no_valid_key_error : Bool
  model_load_warning : Bool
  available_models : List String
  bg_task : Option (List String × List String)
  invalid_api_keys : String
  saved : Bool
deriving Repr, DecidableEq

/-- Embeds the key-check portion of `startup_event` (main.py 259–325).
Parameters: the probe, the model fetch (`GeminiClient.list_available_models`,
which may raise — `Except`), the `SKIP_CHECK_API_KEY` flag, the initial key
list, the persisted `INVALID_API_KEYS` value and the current
`AVAILABLE_MODELS`.  The synchronous first-valid probe always runs; if no
key validates an error-severity entry is logged and no background task is
scheduled; the model fetch failure is caught and only sets a warning; with
`SKIP_CHECK_API_KEY` the remaining keys are appended unprobed and nothing is
scheduled or persisted. -/
def startup_event (test : String → Bool)
    (list_available_models : String → Except String (List String))
    (skip_check_api_key : Bool) (initial_keys : List String)
    (invalid0 : String) (models0 : List String) : StartupResult :=
  let s := syncFindFirst test initial_keys
  let pool1 : List String := match s.first with | some k => [k] | none => []
  let resets1 : Nat := match s.first with | some _ => 1 | none => 0
  let later : List String := match s.first with | some _ => s.later | none => []
  let fetched : List String × Bool :=
    match s.first with
    | none => (models0, false)
    | some k =>
      match list_available_models k with
      | Except.ok ms => (ms.map (fun m => m.replace "models/" ""), false)
      | Except.error _ => (models0, true)
  if skip_check_api_key then
    { pool := pool1 ++ later, first_valid_key := s.first,
      initial_invalid_keys := s.invalid, keys_to_check_later := later,
      sync_probed := s.probed, resets := resets1 + 1,
      no_valid_key_error := s.first.isNone, model_load_warning := fetched.2,
      available_models := fetched.1, bg_task := none,
      invalid_api_keys := invalid0, saved := false }
  else if later.isEmpty then
    let m := mergeInvalid invalid0 s.invalid
    { pool := pool1, first_valid_key := s.first,
      initial_invalid_keys := s.invalid, keys_to_check_later := later,
      sync_probed := s.probed, resets := resets1,
      no_valid_key_error := s.first.isNone, model_load_warning := fetched.2,
      available_models := fetched.1, bg_task := none,
      invalid_api_keys := m.1, saved := m.2 }
  else
    { pool := pool1, first_valid_key := s.first,
      initial_invalid_keys := s.invalid, keys_to_check_later := later,
      sync_probed := s.probed, resets := resets1,
      no_valid_key_error := s.first.isNone, model_load_warning := fetched.2,
      available_models := fetched.1, bg_task := some (later, s.invalid),
      invalid_api_keys := invalid0, saved := false }

/-! ## Probe outcomes and the validator -/

/-- Raw outcome of one upstream probe: unambiguous acceptance, an
authorization-class rejection, or an ambiguous/unexpected error. -/
inductive ProbeResult where
  | valid
  | invalid
  | error
deriving Repr, DecidableEq

/-- Modelled from the spec: `test_api_key` (in `app.utils`, not under
`src/`) performs one lightweight upstream probe and classifies the
credential; per spec §4.2/§7 it returns `true` only on unambiguous
acceptance, `false` on an authorization-class rejection, and on an
ambiguous or unexpected error it must not classify the key invalid and
must not propagate the error (the error is logged and the caller keeps
going), so the sweep loop observes a boolean for every candidate. -/
def test_api_key (probe : String → ProbeResult) (k : String) : Bool :=
  match probe k with
  | ProbeResult.valid => true
  | ProbeResult.invalid => false
  | ProbeResult.error => true

/-! ## Process-wide exception fallback (main.py 357–371) -/

/-- Embeds `app.models.schemas.ErrorResponse` as used by the handler. -/
structure ErrorResponse where
  message : String
  type : String
deriving Repr, DecidableEq

/-- What one invocation of the fallback handler produces: the JSON
response (status code and body) and the server-side log line. -/
structure HandlerOutcome where
  status_code : Nat
  content : ErrorResponse
  logged : String
deriving Repr, DecidableEq

/-- Embeds `global_exception_handler` (main.py 357–371): logs
`translate_error(str(exc))` server-side and returns a status-500 JSON
body `ErrorResponse(message=str(exc), type="internal_error")`. -/
def global_exception_handler (translate_error : String → String)
    (exc : String) : HandlerOutcome :=
  { status_code := 500,
    content := { message := exc, type := "internal_error" },
    logged := "Unhandled exception: " ++ translate_error exc }

/-- A well-formed credential for the comma-separated persistence format:
nonempty, whitespace-trimmed and comma-free, so that joining and
re-splitting recovers it exactly. -/
def GoodKey (k : String) : Prop :=
  k ≠ "" ∧ strip k = k ∧ ',' ∉ k.data

instance : DecidablePred GoodKey := fun k => by
  unfold GoodKey; infer_instance

/-! ## Lemmas: comma split/join roundtrip -/

theorem splitCommaChars_comma (cs : List Char) :
    splitCommaChars (',' :: cs) = [] :: splitCommaChars cs := by
  rw [splitCommaChars, if_pos rfl]

theorem splitCommaChars_not_comma {c : Char} (hc : c ≠ ',') {cs : List Char}
    {p : List Char} {ps : List (List Char)} (h : splitCommaChars cs = p :: ps) :
    splitCommaChars (c :: cs) = (c :: p) :: ps := by
  rw [splitCommaChars, if_neg hc, h]

theorem splitCommaChars_cons_shape (cs : List Char) :
    ∃ p ps, splitCommaChars cs = p :: ps := by
  induction cs with
  | nil => exact ⟨[], [], rfl⟩
  | cons c cs ih =>
    obtain ⟨p, ps, hp⟩ := ih
    by_cases hc : c = ','
    · exact ⟨[], splitCommaChars cs, by rw [hc, splitCommaChars_comma]⟩
    · exact ⟨c :: p, ps, splitCommaChars_not_comma hc hp⟩

theorem not_comma_of_mem_splitCommaChars {cs x : List Char}
    (hx : x ∈ splitCommaChars cs) : ',' ∉ x := by
  induction cs generalizing x with
  | nil =>
    have : x = [] := by simpa [splitCommaChars] using hx
    simp [this]
  | cons c cs ih =>
    by_cases hc : c = ','
    · rw [hc, splitCommaChars_comma] at hx
      rcases List.mem_cons.mp hx with h | h
      · simp [h]
      · exact ih h
    · obtain ⟨p, ps, hp⟩ := splitCommaChars_cons_shape cs
      rw [splitCommaChars_not_comma hc hp] at hx
      rcases List.mem_cons.mp hx with h | h
      · subst h
        intro hmem
        rcases List.mem_cons.mp hmem with h | h
        · exact hc h.symm
        · exact ih (hp ▸ List.mem_cons_self p ps) h
      · exact ih (hp ▸ List.mem_cons_of_mem p h)

theorem splitCommaChars_append {x cs : List Char} {p : List Char}
    {ps : List (List Char)} (hx : ',' ∉ x) (h : splitCommaChars cs = p :: ps) :
    splitCommaChars (x ++ cs) = (x ++ p) :: ps := by
  induction x with
  | nil => simpa using h
  | cons c t ih =>
    have hc : c ≠ ',' := fun hc => hx (hc ▸ List.mem_cons_self c t)
    have ht : ',' ∉ t := fun hm => hx (List.mem_cons_of_mem c hm)
    rw [List.cons_append]
    exact splitCommaChars_not_comma hc (ih ht)

theorem splitCommaChars_joinCommaChars :
    ∀ l : List (List Char), l ≠ [] → (∀ x ∈ l, ',' ∉ x) →
      splitCommaChars (joinCommaChars l) = l := by
  intro l
  induction l with
  | nil => intro h; exact absurd rfl h
  | cons x r ih =>
    intro _ hc
    have hx : ',' ∉ x := hc x (List.mem_cons_self x r)
    cases r with
    | nil =>
      have h0 : splitCommaChars (x ++ []) = (x ++ []) :: [] :=
        splitCommaChars_append hx rfl
      simpa [joinCommaChars] using h0
    | cons y r' =>
      have hr : splitCommaChars (joinCommaChars (y :: r')) = y :: r' :=
        ih (by simp) (fun z hz => hc z (List.mem_cons_of_mem x hz))
      have hcomma : splitCommaChars (',' :: joinCommaChars (y :: r')) =
          [] :: (y :: r') := by
        rw [splitCommaChars_comma, hr]
      have happ := splitCommaChars_append hx hcomma
      simpa [joinCommaChars] using happ

/-! ## Lemmas: strip -/

theorem length_dropWhile_le' (p : Char → Bool) (l : List Char) :
    (l.dropWhile p).length ≤ l.length := by
  induction l with
  | nil => simp
  | cons c t ih =>
    by_cases hc : p c
    · simp only [List.dropWhile_cons, hc, if_pos]
      exact Nat.le_succ_of_le ih
    · simp [List.dropWhile_cons, hc]

theorem dropWhile_head_false {p : Char → Bool} {l t : List Char} {c : Char}
    (h : l.dropWhile p = c :: t) : p c = false := by
  induction l with
  | nil => simp at h
  | cons a l ih =>
    by_cases ha : p a
    · rw [List.dropWhile_cons, if_pos ha] at h
      exact ih h
    · rw [List.dropWhile_cons, if_neg ha] at h
      cases h
      simpa using ha

theorem dropWhile_idem (p : Char → Bool) (l : List Char) :
    (l.dropWhile p).dropWhile p = l.dropWhile p := by
  rcases h : l.dropWhile p with _ | ⟨c, t⟩
  · rfl
  · have := dropWhile_head_false h
    simp [List.dropWhile_cons, this]

theorem dropWhile_eq_self_of_front {p : Char → Bool} {q r m : List Char}
    (hm : m = q ++ r) (hfix : m.dropWhile p = m) : q.dropWhile p = q := by
  cases q with
  | nil => rfl
  | cons c t =>
    have hc : p c = false := by
      subst hm
      by_cases h : p c
      · rw [List.cons_append, List.dropWhile_cons, if_pos h] at hfix
        have hlen := length_dropWhile_le' p (t ++ r)
        rw [hfix] at hlen
        simp at hlen
      · simpa using h
    simp [List.dropWhile_cons, hc]

theorem stripChars_idem (l : List Char) :
    stripChars (stripChars l) = stripChars l := by
  set w := Char.isWhitespace with hw
  set A := l.dropWhile w with hA
  have hAfix : A.dropWhile w = A := dropWhile_idem w l
  set D := A.reverse.dropWhile w with hD
  have hS : stripChars l = D.reverse := rfl
  have hdecomp : A = D.reverse ++ (A.reverse.takeWhile w).reverse := by
    have h1 : A.reverse.takeWhile w ++ D = A.reverse :=
      List.takeWhile_append_dropWhile w A.reverse
    have h2 : (A.reverse.takeWhile w ++ D).reverse = A := by
      rw [h1, List.reverse_reverse]
    rw [List.reverse_append] at h2
    exact h2.symm
  have hSleft : D.reverse.dropWhile w = D.reverse :=
    dropWhile_eq_self_of_front hdecomp hAfix
  show ((D.reverse.dropWhile w).reverse.dropWhile w).reverse = D.reverse
  rw [hSleft, List.reverse_reverse]
  have : D.dropWhile w = D := by
    rw [hD]
    exact dropWhile_idem w A.reverse
  rw [this]

theorem mem_of_mem_stripChars {l : List Char} {c : Char}
    (h : c ∈ stripChars l) : c ∈ l := by
  unfold stripChars at h
  rw [List.mem_reverse] at h
  have h1 := List.dropWhile_sublist (l := (l.dropWhile Char.isWhitespace).reverse)
    (p := Char.isWhitespace)
  have h2 : c ∈ (l.dropWhile Char.isWhitespace).reverse := h1.mem h
  rw [List.mem_reverse] at h2
  exact (List.dropWhile_sublist (p := Char.isWhitespace)).mem h2

theorem strip_idem (s : String) : strip (strip s) = strip s := by
  show String.mk (stripChars (stripChars s.data)) = String.mk (stripChars s.data)
  rw [stripChars_idem]

/-! ## Lemmas: parse/serialize roundtrip -/

theorem mk_data (s : String) : String.mk s.data = s := rfl

theorem goodKey_of_mem_parse {s : String} {k : String}
    (hk : k ∈ parseInvalidKeys s) : GoodKey k := by
  unfold parseInvalidKeys at hk
  rw [List.mem_toFinset, List.mem_filter] at hk
  obtain ⟨hmem, hne⟩ := hk
  obtain ⟨t, ht, hst⟩ := List.mem_map.mp hmem
  obtain ⟨piece, hpiece, hmk⟩ := List.mem_map.mp ht
  refine ⟨by simpa using hne, ?_, ?_⟩
  · rw [← hst, strip_idem]
  · intro hcomma
    have hdata : k.data = stripChars piece := by
      rw [← hst, ← hmk]
      rfl
    rw [hdata] at hcomma
    exact not_comma_of_mem_splitCommaChars hpiece (mem_of_mem_stripChars hcomma)

theorem parse_serialize (X : Finset String) (hX : ∀ k ∈ X, GoodKey k) :
    parseInvalidKeys (serializeInvalidKeys X) = X := by
  by_cases hL : Finset.sort (· ≤ ·) X = []
  · have hX0 : X = ∅ := by
      have := Finset.sort_toFinset (· ≤ ·) X
      rw [hL] at this
      simpa using this.symm
    have hser : serializeInvalidKeys X = "" := by
      unfold serializeInvalidKeys
      rw [hL]
      rfl
    rw [hser, hX0]
    decide
  · set L := Finset.sort (· ≤ ·) X with hLdef
    have hgood : ∀ k ∈ L, GoodKey k := fun k hk =>
      hX k (Finset.mem_sort (· ≤ ·) |>.mp hk)
    have hsplit : splitComma (serializeInvalidKeys X) = L := by
      show (splitCommaChars (joinCommaChars (L.map String.data))).map String.mk = L
      rw [splitCommaChars_joinCommaChars (L.map String.data)
        (by simpa using hL)
        (by
          intro x hx
          obtain ⟨k, hk, hkx⟩ := List.mem_map.mp hx
          intro hc
          exact (hgood k hk).2.2 (hkx ▸ hc))]
      rw [List.map_map]
      rw [List.map_congr_left (fun k _ => (rfl : (String.mk ∘ String.data) k = id k))]
      exact List.map_id L
    unfold parseInvalidKeys
    rw [hsplit]
    have hstrip : L.map strip = L := by
      rw [List.map_congr_left (fun k hk => (hgood k hk).2.1)]
      exact List.map_id L
    rw [hstrip]
    have hfilter : L.filter (· ≠ "") = L :=
      List.filter_eq_self.mpr (fun k hk => by simpa using (hgood k hk).1)
    rw [hfilter, hLdef, Finset.sort_toFinset]

/-! ## Lemmas: the invalid-key merge -/

theorem mergeInvalid_eq_of_no_change {s : String} {N : List String}
    (h : parseInvalidKeys s ∪ N.toFinset = parseInvalidKeys s) :
    mergeInvalid s N = (s, false) := by
  simp only [mergeInvalid]
  rw [if_neg (not_not.mpr h)]

theorem mergeInvalid_eq_of_change {s : String} {N : List String}
    (h : parseInvalidKeys s ∪ N.toFinset ≠ parseInvalidKeys s) :
    mergeInvalid s N =
      (serializeInvalidKeys (parseInvalidKeys s ∪ N.toFinset), true) := by
  simp only [mergeInvalid]
  rw [if_pos h]

theorem parse_mergeInvalid (s : String) (N : List String)
    (hN : ∀ k ∈ N, GoodKey k) :
    parseInvalidKeys (mergeInvalid s N).1 = parseInvalidKeys s ∪ N.toFinset := by
  by_cases h : parseInvalidKeys s ∪ N.toFinset = parseInvalidKeys s
  · rw [mergeInvalid_eq_of_no_change h, h]
  · rw [mergeInvalid_eq_of_change h]
    exact parse_serialize _ (fun k hk => by
      rcases Finset.mem_union.mp hk with hk | hk
      · exact goodKey_of_mem_parse hk
      · exact hN k (List.mem_toFinset.mp hk))

theorem saved_mergeInvalid (s : String) (N : List String) :
    (mergeInvalid s N).2 = true ↔
      parseInvalidKeys s ∪ N.toFinset ≠ parseInvalidKeys s := by
  by_cases h : parseInvalidKeys s ∪ N.toFinset = parseInvalidKeys s
  · rw [mergeInvalid_eq_of_no_change h]
    simpa using h
  · rw [mergeInvalid_eq_of_change h]
    simpa using h

theorem mergeInvalid_rerun (s : String) (N : List String)
    (hN : ∀ k ∈ N, GoodKey k) :
    mergeInvalid (mergeInvalid s N).1 N = ((mergeInvalid s N).1, false) := by
  apply mergeInvalid_eq_of_no_change
  rw [parse_mergeInvalid s N hN, Finset.union_assoc, Finset.union_self]

/-! ## Lemmas: the background sweep loop -/

theorem bgStep_probed (test : String → Bool) (st : BgLoopState) (k : String) :
    (bgStep test st k).probed = st.probed ++ [k] := by
  unfold bgStep
  split <;> [skip; rfl]
  split <;> rfl

theorem bgStep_local (test : String → Bool) (st : BgLoopState) (k : String) :
    (bgStep test st k).local_invalid =
      if test k then st.local_invalid else st.local_invalid ++ [k] := by
  unfold bgStep
  split <;> [skip; rfl]
  split <;> rfl

theorem bgLoop_probed (test : String → Bool) (keys : List String) :
    ∀ st : BgLoopState,
      (keys.foldl (bgStep test) st).probed = st.probed ++ keys := by
  induction keys with
  | nil => intro st; simp
  | cons k ks ih =>
    intro st
    rw [List.foldl_cons, ih, bgStep_probed]
    simp

theorem bgLoop_local (test : String → Bool) (keys : List String) :
    ∀ st : BgLoopState,
      (keys.foldl (bgStep test) st).local_invalid =
        st.local_invalid ++ keys.filter (fun k => !test k) := by
  induction keys with
  | nil => intro st; simp
  | cons k ks ih =>
    intro st
    rw [List.foldl_cons, ih, bgStep_local, List.filter_cons]
    by_cases h : test k <;> simp [h]

theorem bgLoop_pool_spec (test : String → Bool) (keys : List String) :
    ∀ st : BgLoopState, ∃ extra : List String,
      (keys.foldl (bgStep test) st).pool = st.pool ++ extra ∧
      (keys.foldl (bgStep test) st).found_valid =
        (st.found_valid || !extra.isEmpty) ∧
      (st.pool.Nodup → (st.pool ++ extra).Nodup) := by
  induction keys with
  | nil =>
    intro st
    exact ⟨[], by simp⟩
  | cons k ks ih =>
    intro st
    rw [List.foldl_cons]
    obtain ⟨extra, h1, h2, h3⟩ := ih (bgStep test st k)
    by_cases hv : test k
    · by_cases hm : k ∈ st.pool
      · have hpool : (bgStep test st k).pool = st.pool := by
          simp [bgStep, hv, hm]
        have hfound : (bgStep test st k).found_valid = st.found_valid := by
          simp [bgStep, hv, hm]
        rw [hpool] at h1 h3
        rw [hfound] at h2
        exact ⟨extra, h1, h2, h3⟩
      · have hpool : (bgStep test st k).pool = st.pool ++ [k] := by
          simp [bgStep, hv, hm]
        have hfound : (bgStep test st k).found_valid = true := by
          simp [bgStep, hv, hm]
        rw [hpool] at h1 h3
        rw [hfound] at h2
        refine ⟨k :: extra, ?_, ?_, ?_⟩
        · rw [h1, List.append_assoc]
          rfl
        · rw [h2]
          simp
        · intro hnd
          have hsingle : (st.pool ++ [k]).Nodup := by
            simp [List.nodup_append, hnd, hm]
          have h4 := h3 hsingle
          rw [List.append_assoc] at h4
          exact h4
    · have hpool : (bgStep test st k).pool = st.pool := by
        simp [bgStep, hv]
      have hfound : (bgStep test st k).found_valid = st.found_valid := by
        simp [bgStep, hv]
      rw [hpool] at h1 h3
      rw [hfound] at h2
      exact ⟨extra, h1, h2, h3⟩

theorem bgLoop_pool_mono (test : String → Bool) (keys : List String)
    (st : BgLoopState) : st.pool ⊆ (keys.foldl (bgStep test) st).pool := by
  obtain ⟨extra, h1, _, _⟩ := bgLoop_pool_spec test keys st
  rw [h1]
  exact List.subset_append_left _ _

theorem bgLoop_mem_pool (test : String → Bool) (keys : List String) :
    ∀ st : BgLoopState, ∀ k ∈ keys, test k = true →
      k ∈ (keys.foldl (bgStep test) st).pool := by
  induction keys with
  | nil => intro st k hk; simp at hk
  | cons a ks ih =>
    intro st k hk hv
    rw [List.foldl_cons]
    rcases List.mem_cons.mp hk with h | h
    · subst h
      apply bgLoop_pool_mono
      by_cases hm : k ∈ (st : BgLoopState).pool
      · simp [bgStep, hv, hm]
      · simp [bgStep, hv, hm]
    · exact ih _ k h hv

/-! ## Lemmas: the synchronous startup probe -/

theorem syncFindFirst_all_invalid (test : String → Bool) :
    ∀ keys : List String, (∀ k ∈ keys, test k = false) →
      syncFindFirst test keys = ⟨none, keys, [], keys⟩ := by
  intro keys
  induction keys with
  | nil => intro _; rfl
  | cons k ks ih =>
    intro h
    have hk : test k = false := h k (List.mem_cons_self k ks)
    have hrec := ih (fun x hx => h x (List.mem_cons_of_mem k hx))
    simp [syncFindFirst, hk, hrec]

theorem syncFindFirst_none_later (test : String → Bool) :
    ∀ keys : List String, (syncFindFirst test keys).first = none →
      (syncFindFirst test keys).later = [] := by
  intro keys
  induction keys with
  | nil => intro _; rfl
  | cons k ks ih =>
    intro h
    cases hk : test k
    · simp [syncFindFirst, hk] at h ⊢
      exact ih h
    · simp [syncFindFirst, hk] at h

/-! ## Claim C1 -/

/-- C1: for every initial credential list `[A, B, C]` where probing `A`
returns invalid and probing `B` returns valid, startup probes
synchronously in list order (`[A, B]`), stops at `B`, seeds the pool with
exactly `B`, resets rotation, hands exactly the credentials after `B`
(here `[C]`, together with the recorded invalid `[A]`) to the background
validation task, and probes `A` synchronously exactly once. -/
theorem startup_scenario_first_valid_key (test : String → Bool)
    (fetch : String → Except String (List String)) (A B C inv0 : String)
    (models0 : List String) (hA : test A = false) (hB : test B = true) :
    (startup_event test fetch false [A, B, C] inv0 models0).sync_probed = [A, B] ∧
    ((startup_event test fetch false [A, B, C] inv0 models0).sync_probed).count A = 1 ∧
    (startup_event test fetch false [A, B, C] inv0 models0).pool = [B] ∧
    (startup_event test fetch false [A, B, C] inv0 models0).resets = 1 ∧
    (startup_event test fetch false [A, B, C] inv0 models0).bg_task = some ([C], [A]) ∧
    (startup_event test fetch false [A, B, C] inv0 models0).first_valid_key = some B := by
  have hs : syncFindFirst test [A, B, C] = ⟨some B, [A], [C], [A, B]⟩ := by
    simp [syncFindFirst, hA, hB]
  have hABne : A ≠ B := by
    intro h
    rw [h] at hA
    rw [hA] at hB
    simp at hB
  refine ⟨?_, ?_, ?_, ?_, ?_, ?_⟩ <;>
    simp [startup_event, hs, List.count_cons, Ne.symm hABne]

/-- Witness for C1 at a concrete instance. -/
theorem startup_scenario_first_valid_key_witness :
    (startup_event (fun s => s == "B") (fun _ => Except.ok []) false
        ["A", "B", "C"] "" []).sync_probed = ["A", "B"] ∧
    ((startup_event (fun s => s == "B") (fun _ => Except.ok []) false
        ["A", "B", "C"] "" []).sync_probed).count "A" = 1 ∧
    (startup_event (fun s => s == "B") (fun _ => Except.ok []) false
        ["A", "B", "C"] "" []).pool = ["B"] ∧
    (startup_event (fun s => s == "B") (fun _ => Except.ok []) false
        ["A", "B", "C"] "" []).resets = 1 ∧
    (startup_event (fun s => s == "B") (fun _ => Except.ok []) false
        ["A", "B", "C"] "" []).bg_task = some (["C"], ["A"]) ∧
    (startup_event (fun s => s == "B") (fun _ => Except.ok []) false
        ["A", "B", "C"] "" []).first_valid_key = some "B" :=
  startup_scenario_first_valid_key (fun s => s == "B") (fun _ => Except.ok [])
    "A" "B" "C" "" [] (by decide) (by decide)

/-! ## Claim C2 -/

/-- C2 counterexample: the fallback handler puts the raw exception text
`str(exc)` into the client-visible response body, so the response does
contain internal exception detail and is not generic across exceptions. -/
theorem exception_handler_leaks_detail :
    (global_exception_handler (fun s => s) "secret upstream detail").content.message
        = "secret upstream detail" ∧
    (global_exception_handler (fun s => s) "error one").content ≠
      (global_exception_handler (fun s => s) "error two").content := by
  exact ⟨rfl, by decide⟩

/-- C2 amended: for every unhandled exception the client-visible response
has status 500 and the generic type `internal_error`, but its `message`
field carries the exception's own text; the translated detail is logged
server-side. -/
theorem exception_handler_amended (translate : String → String) (exc : String) :
    (global_exception_handler translate exc).status_code = 500 ∧
    (global_exception_handler translate exc).content.type = "internal_error" ∧
    (global_exception_handler translate exc).content.message = exc ∧
    (global_exception_handler translate exc).logged =
      "Unhandled exception: " ++ translate exc :=
  ⟨rfl, rfl, rfl, rfl⟩

/-! ## Claim C3 -/

/-- C3 counterexample: with a newly discovered "key" containing a comma,
the persisted set after the merge is not `S ∪ N` (the comma-bearing key is
split on re-parse), and re-running with the same inputs performs another
write. -/
theorem invalid_merge_comma_key_breaks_claim :
    parseInvalidKeys (mergeInvalid "" ["a,b"]).1 ≠
      parseInvalidKeys "" ∪ (["a,b"] : List String).toFinset ∧
    (mergeInvalid (mergeInvalid "" ["a,b"]).1 ["a,b"]).2 = true := by
  have h1 : parseInvalidKeys "" ∪ (["a,b"] : List String).toFinset ≠
      parseInvalidKeys "" := by decide
  have hm := mergeInvalid_eq_of_change h1
  have hset : parseInvalidKeys "" ∪ (["a,b"] : List String).toFinset =
      ({"a,b"} : Finset String) := by decide
  have hser : serializeInvalidKeys ({"a,b"} : Finset String) = "a,b" := by
    unfold serializeInvalidKeys
    rw [Finset.sort_singleton]
    rfl
  have hs1 : (mergeInvalid "" ["a,b"]).1 = "a,b" := by
    rw [hm, hset]
    exact hser
  constructor
  · rw [hs1]
    decide
  · rw [hs1]
    exact (saved_mergeInvalid "a,b" ["a,b"]).mpr (by decide)

/-- C3 amended: for every persisted string and every list `N` of newly
discovered invalid keys that are nonempty, whitespace-trimmed and
comma-free, the merge leaves the persisted set equal to `S ∪ N` (so it
never shrinks), saves exactly when `S ∪ N` differs from `S`, and
re-running with the same inputs changes nothing and performs no write. -/
theorem invalid_merge_union_save_iff (s : String) (N : List String)
    (hN : ∀ k ∈ N, GoodKey k) :
    parseInvalidKeys (mergeInvalid s N).1 = parseInvalidKeys s ∪ N.toFinset ∧
    parseInvalidKeys s ⊆ parseInvalidKeys (mergeInvalid s N).1 ∧
    ((mergeInvalid s N).2 = true ↔
      parseInvalidKeys s ∪ N.toFinset ≠ parseInvalidKeys s) ∧
    mergeInvalid (mergeInvalid s N).1 N = ((mergeInvalid s N).1, false) := by
  refine ⟨parse_mergeInvalid s N hN, ?_, saved_mergeInvalid s N,
    mergeInvalid_rerun s N hN⟩
  rw [parse_mergeInvalid s N hN]
  exact Finset.subset_union_left

/-- Witness for the amended C3 at a concrete instance. -/
theorem invalid_merge_union_save_iff_witness :
    (∀ k ∈ (["b"] : List String), GoodKey k) ∧
    (parseInvalidKeys (mergeInvalid "a" ["b"]).1 =
        parseInvalidKeys "a" ∪ (["b"] : List String).toFinset ∧
      parseInvalidKeys "a" ⊆ parseInvalidKeys (mergeInvalid "a" ["b"]).1 ∧
      ((mergeInvalid "a" ["b"]).2 = true ↔
        parseInvalidKeys "a" ∪ (["b"] : List String).toFinset ≠
          parseInvalidKeys "a") ∧
      mergeInvalid (mergeInvalid "a" ["b"]).1 ["b"] =
        ((mergeInvalid "a" ["b"]).1, false)) :=
  ⟨by decide, invalid_merge_union_save_iff "a" ["b"] (by decide)⟩

/-! ## Claim C4 -/

/-- C4 counterexample: with skip-validation enabled and the single key
`A` failing its probe, startup still performed a synchronous probe and
the pool does not contain the full initial list. -/
theorem skip_mode_still_probes :
    (startup_event (fun _ => false) (fun _ => Except.ok []) true
        ["A"] "" []).sync_probed ≠ [] ∧
    (startup_event (fun _ => false) (fun _ => Except.ok []) true
        ["A"] "" []).pool ≠ ["A"] := by
  decide

/-- C4 amended: when skip-validation mode is enabled, the synchronous
probing and pool seeding/model fetch still happen; only the background
validation scheduling and the invalid-set persistence are bypassed, and
the pool ends up as the first synchronously-valid credential (if any)
followed by the untried remainder — credentials that failed the
synchronous probe are dropped. -/
theorem skip_mode_amended (test : String → Bool)
    (fetch : String → Except String (List String)) (keys : List String)
    (inv0 : String) (models0 : List String) :
    (startup_event test fetch true keys inv0 models0).bg_task = none ∧
    (startup_event test fetch true keys inv0 models0).saved = false ∧
    (startup_event test fetch true keys inv0 models0).invalid_api_keys = inv0 ∧
    (startup_event test fetch true keys inv0 models0).sync_probed =
      (syncFindFirst test keys).probed ∧
    (startup_event test fetch true keys inv0 models0).first_valid_key =
      (syncFindFirst test keys).first ∧
    (startup_event test fetch true keys inv0 models0).pool =
      (syncFindFirst test keys).first.toList ++ (syncFindFirst test keys).later := by
  refine ⟨rfl, rfl, rfl, rfl, rfl, ?_⟩
  cases h : (syncFindFirst test keys).first with
  | none =>
    simp [startup_event, h, syncFindFirst_none_later test keys h]
  | some k =>
    simp [startup_event, h]

/-! ## Claim C5 -/

/-- C5: if no credential validates synchronously, startup still completes
(the embedding is a total function), records the error-severity log
(`no_valid_key_error`), schedules no background task, emits no other
warning, and leaves the pool empty. -/
theorem no_valid_key_graceful (test : String → Bool)
    (fetch : String → Except String (List String)) (skip : Bool)
    (keys : List String) (inv0 : String) (models0 : List String)
    (h : ∀ k ∈ keys, test k = false) :
    (startup_event test fetch skip keys inv0 models0).first_valid_key = none ∧
    (startup_event test fetch skip keys inv0 models0).no_valid_key_error = true ∧
    (startup_event test fetch skip keys inv0 models0).bg_task = none ∧
    (startup_event test fetch skip keys inv0 models0).model_load_warning = false ∧
    (startup_event test fetch skip keys inv0 models0).pool = [] := by
  have hs := syncFindFirst_all_invalid test keys h
  cases skip <;> simp [startup_event, hs]

/-- Witness for C5 at a concrete instance. -/
theorem no_valid_key_graceful_witness :
    (∀ k ∈ (["A"] : List String), (fun _ => false : String → Bool) k = false) ∧
    ((startup_event (fun _ => false) (fun _ => Except.ok []) false
        ["A"] "" []).first_valid_key = none ∧
      (startup_event (fun _ => false) (fun _ => Except.ok []) false
        ["A"] "" []).no_valid_key_error = true ∧
      (startup_event (fun _ => false) (fun _ => Except.ok []) false
        ["A"] "" []).bg_task = none ∧
      (startup_event (fun _ => false) (fun _ => Except.ok []) false
        ["A"] "" []).model_load_warning = false ∧
      (startup_event (fun _ => false) (fun _ => Except.ok []) false
        ["A"] "" []).pool = []) :=
  ⟨by decide, no_valid_key_graceful (fun _ => false) (fun _ => Except.ok [])
    false ["A"] "" [] (by decide)⟩

/-! ## Claim C6 -/

/-- C6: in the background sweep, every candidate classified valid ends up
in the pool, the pool stays duplicate-free (valid candidates are appended
only if not already present), every candidate classified invalid is
handed to the persisted-invalid-set merge, and the rotation reset fires
exactly when at least one valid candidate was actually merged (i.e. the
pool grew). -/
theorem bg_sweep_dedup_merge_reset (test : String → Bool)
    (keys init_inv pool0 : List String) (inv0 : String)
    (hnd : pool0.Nodup) :
    (check_remaining_keys_async test keys init_inv pool0 inv0).pool.Nodup ∧
    (∀ k ∈ keys, test k = true →
      k ∈ (check_remaining_keys_async test keys init_inv pool0 inv0).pool) ∧
    (check_remaining_keys_async test keys init_inv pool0 inv0).local_invalid =
      keys.filter (fun k => !test k) ∧
    (check_remaining_keys_async test keys init_inv pool0 inv0).invalid_api_keys =
      (mergeInvalid inv0 (init_inv ++
        (check_remaining_keys_async test keys init_inv pool0 inv0).local_invalid)).1 ∧
    (check_remaining_keys_async test keys init_inv pool0 inv0).saved =
      (mergeInvalid inv0 (init_inv ++
        (check_remaining_keys_async test keys init_inv pool0 inv0).local_invalid)).2 ∧
    ((check_remaining_keys_async test keys init_inv pool0 inv0).resets = 1 ↔
      (check_remaining_keys_async test keys init_inv pool0 inv0).pool ≠ pool0) := by
  obtain ⟨extra, h1, h2, h3⟩ := bgLoop_pool_spec test keys ⟨pool0, [], false, []⟩
  refine ⟨?_, ?_, ?_, rfl, rfl, ?_⟩
  · show (keys.foldl (bgStep test) ⟨pool0, [], false, []⟩).pool.Nodup
    rw [h1]
    exact h3 hnd
  · intro k hk hv
    exact bgLoop_mem_pool test keys _ k hk hv
  · show (keys.foldl (bgStep test) ⟨pool0, [], false, []⟩).local_invalid = _
    rw [bgLoop_local]
    rfl
  · show (if (keys.foldl (bgStep test) ⟨pool0, [], false, []⟩).found_valid
        then 1 else 0) = 1 ↔
      (keys.foldl (bgStep test) ⟨pool0, [], false, []⟩).pool ≠ pool0
    rw [h1, h2]
    cases extra with
    | nil => simp
    | cons a t => simp

/-- Witness for C6 at a concrete instance. -/
theorem bg_sweep_dedup_merge_reset_witness :
    (["p"] : List String).Nodup ∧
    ((check_remaining_keys_async (fun s => s == "y") ["x", "y"] ["i"] ["p"] "").pool.Nodup ∧
      (∀ k ∈ (["x", "y"] : List String), (fun s => s == "y") k = true →
        k ∈ (check_remaining_keys_async (fun s => s == "y") ["x", "y"] ["i"] ["p"] "").pool) ∧
      (check_remaining_keys_async (fun s => s == "y") ["x", "y"] ["i"] ["p"] "").local_invalid =
        (["x", "y"] : List String).filter (fun k => !(fun s => s == "y") k) ∧
      (check_remaining_keys_async (fun s => s == "y") ["x", "y"] ["i"] ["p"] "").invalid_api_keys =
        (mergeInvalid "" (["i"] ++
          (check_remaining_keys_async (fun s => s == "y") ["x", "y"] ["i"] ["p"] "").local_invalid)).1 ∧
      (check_remaining_keys_async (fun s => s == "y") ["x", "y"] ["i"] ["p"] "").saved =
        (mergeInvalid "" (["i"] ++
          (check_remaining_keys_async (fun s => s == "y") ["x", "y"] ["i"] ["p"] "").local_invalid)).2 ∧
      ((check_remaining_keys_async (fun s => s == "y") ["x", "y"] ["i"] ["p"] "").resets = 1 ↔
        (check_remaining_keys_async (fun s => s == "y") ["x", "y"] ["i"] ["p"] "").pool ≠ ["p"])) :=
  ⟨by decide, bg_sweep_dedup_merge_reset (fun s => s == "y") ["x", "y"] ["i"]
    ["p"] "" (by decide)⟩

/-! ## Claim C7 -/

/-- C7: even when probing some candidate ends in an unexpected error, the
background sweep is not aborted: every candidate in the list is probed
and the final invalid-set merge and save bookkeeping still happen.
`test_api_key` (not under `src/`) is modelled from the spec as absorbing
probe errors instead of propagating them. -/
theorem bg_sweep_tolerates_probe_error (probe : String → ProbeResult)
    (keys init_inv pool0 : List String) (inv0 : String)
    (_herr : ∃ k ∈ keys, probe k = ProbeResult.error) :
    (check_remaining_keys_async (test_api_key probe) keys init_inv pool0 inv0).probed
        = keys ∧
    (check_remaining_keys_async (test_api_key probe) keys init_inv pool0 inv0).invalid_api_keys =
      (mergeInvalid inv0 (init_inv ++
        (check_remaining_keys_async (test_api_key probe) keys init_inv pool0 inv0).local_invalid)).1 ∧
    (check_remaining_keys_async (test_api_key probe) keys init_inv pool0 inv0).saved =
      (mergeInvalid inv0 (init_inv ++
        (check_remaining_keys_async (test_api_key probe) keys init_inv pool0 inv0).local_invalid)).2 := by
  refine ⟨?_, rfl, rfl⟩
  show (keys.foldl (bgStep (test_api_key probe)) ⟨pool0, [], false, []⟩).probed = keys
  rw [bgLoop_probed]
  rfl

/-- Witness for C7 at a concrete instance (the probe errors on `"x"`). -/
theorem bg_sweep_tolerates_probe_error_witness :
    (∃ k ∈ (["x", "y"] : List String),
      (fun s => if s = "x" then ProbeResult.error else ProbeResult.invalid) k
        = ProbeResult.error) ∧
    ((check_remaining_keys_async
        (test_api_key (fun s => if s = "x" then ProbeResult.error else ProbeResult.invalid))
        ["x", "y"] [] [] "").probed = ["x", "y"] ∧
      (check_remaining_keys_async
        (test_api_key (fun s => if s = "x" then ProbeResult.error else ProbeResult.invalid))
        ["x", "y"] [] [] "").invalid_api_keys =
        (mergeInvalid "" ([] ++
          (check_remaining_keys_async
            (test_api_key (fun s => if s = "x" then ProbeResult.error else ProbeResult.invalid))
            ["x", "y"] [] [] "").local_invalid)).1 ∧
      (check_remaining_keys_async
        (test_api_key (fun s => if s = "x" then ProbeResult.error else ProbeResult.invalid))
        ["x", "y"] [] [] "").saved =
        (mergeInvalid "" ([] ++
          (check_remaining_keys_async
            (test_api_key (fun s => if s = "x" then ProbeResult.error else ProbeResult.invalid))
            ["x", "y"] [] [] "").local_invalid)).2) :=
  ⟨by decide, bg_sweep_tolerates_probe_error
    (fun s => if s = "x" then ProbeResult.error else ProbeResult.invalid)
    ["x", "y"] [] [] "" (by decide)⟩

/-! ## Claim C8 -/

/-- C8: when the first valid credential is found but fetching the model
list with it fails, the failure is caught: startup only records a
warning, leaves `AVAILABLE_MODELS` unchanged, and the pool keeps that
credential. -/
theorem model_fetch_failure_warning_only (test : String → Bool)
    (fetch : String → Except String (List String)) (skip : Bool)
    (keys : List String) (inv0 : String) (models0 : List String)
    (k e : String) (h1 : (syncFindFirst test keys).first = some k)
    (h2 : fetch k = Except.error e) :
    (startup_event test fetch skip keys inv0 models0).model_load_warning = true ∧
    (startup_event test fetch skip keys inv0 models0).available_models = models0 ∧
    (startup_event test fetch skip keys inv0 models0).first_valid_key = some k ∧
    k ∈ (startup_event test fetch skip keys inv0 models0).pool := by
  cases skip <;>
    by_cases hl : ((syncFindFirst test keys).later).isEmpty <;>
      simp [startup_event, h1, h2, hl]

/-- Witness for C8 at a concrete instance (the fetch always fails). -/
theorem model_fetch_failure_warning_only_witness :
    ((syncFindFirst (fun _ => true) ["A"]).first = some "A" ∧
      (fun _ => Except.error "boom" : String → Except String (List String)) "A"
        = Except.error "boom") ∧
    ((startup_event (fun _ => true) (fun _ => Except.error "boom") false
        ["A"] "" ["m"]).model_load_warning = true ∧
      (startup_event (fun _ => true) (fun _ => Except.error "boom") false
        ["A"] "" ["m"]).available_models = ["m"] ∧
      (startup_event (fun _ => true) (fun _ => Except.error "boom") false
        ["A"] "" ["m"]).first_valid_key = some "A" ∧
      "A" ∈ (startup_event (fun _ => true) (fun _ => Except.error "boom") false
        ["A"] "" ["m"]).pool) :=
  ⟨⟨by decide, rfl⟩, model_fetch_failure_warning_only (fun _ => true)
    (fun _ => Except.error "boom") false ["A"] "" ["m"] "A" "boom"
    (by decide) rfl⟩

/-! ## Claim C9 -/

/-- C9: every string the key-check path writes is the canonical
serialization (sorted, deduplicated, comma-joined) of the resulting
invalid-key set, so two runs from the same persisted state whose
resulting invalid sets are equal persist byte-identical strings,
whatever the order in which the invalid keys were discovered. -/
theorem persisted_string_canonical (inv0 : String) (N1 N2 : List String)
    (h : parseInvalidKeys inv0 ∪ N1.toFinset =
      parseInvalidKeys inv0 ∪ N2.toFinset) :
    (mergeInvalid inv0 N1).1 = (mergeInvalid inv0 N2).1 ∧
    ((mergeInvalid inv0 N1).2 = true →
      (mergeInvalid inv0 N1).1 =
        serializeInvalidKeys (parseInvalidKeys inv0 ∪ N1.toFinset)) := by
  constructor
  · by_cases hc : parseInvalidKeys inv0 ∪ N1.toFinset = parseInvalidKeys inv0
    · have hc2 : parseInvalidKeys inv0 ∪ N2.toFinset = parseInvalidKeys inv0 := by
        rw [← h]
        exact hc
      rw [mergeInvalid_eq_of_no_change hc, mergeInvalid_eq_of_no_change hc2]
    · have hc2 : parseInvalidKeys inv0 ∪ N2.toFinset ≠ parseInvalidKeys inv0 := by
        rw [← h]
        exact hc
      rw [mergeInvalid_eq_of_change hc, mergeInvalid_eq_of_change hc2, h]
  · intro hs
    have hc := (saved_mergeInvalid inv0 N1).mp hs
    rw [mergeInvalid_eq_of_change hc]

/-- Witness for C9 at a concrete instance: the same invalid keys
discovered in two different orders persist the same string. -/
theorem persisted_string_canonical_witness :
    (parseInvalidKeys "" ∪ (["b", "a"] : List String).toFinset =
      parseInvalidKeys "" ∪ (["a", "b"] : List String).toFinset) ∧
    ((mergeInvalid "" ["b", "a"]).1 = (mergeInvalid "" ["a", "b"]).1 ∧
      ((mergeInvalid "" ["b", "a"]).2 = true →
        (mergeInvalid "" ["b", "a"]).1 =
          serializeInvalidKeys (parseInvalidKeys "" ∪
            (["b", "a"] : List String).toFinset))) :=
  ⟨by decide, persisted_string_canonical "" ["b", "a"] ["a", "b"] (by decide)⟩

/-! ## Claim C10 -/

/-- C10: with skip-validation enabled the startup key-check path never
calls the settings save operation and leaves the persisted invalid-key
setting unchanged, whatever the probe results on the initial keys. -/
theorem skip_mode_no_save (test : String → Bool)
    (fetch : String → Except String (List String)) (keys : List String)
    (inv0 : String) (models0 : List String) :
    (startup_event test fetch true keys inv0 models0).saved = false ∧
    (startup_event test fetch true keys inv0 models0).invalid_api_keys = inv0 :=
  ⟨rfl, rfl⟩

end Hajimi
